import Mathlib

/-!
Verification of the subscription-billing core: the subscription status
resolver (src/src/app/mypages/hooks/index.payment.status.hook.ts), the
ledger row type (src/src/lib/supabase.ts), and the webhook orchestrator
(src/unnamed/part_000, the route handler `POST`).

Instants are modelled as milliseconds since the Unix epoch (`Int`), with the
ambient timezone taken to be UTC, so that the JS `setDate`/`setHours` calls
become arithmetic on day boundaries.  JS date parsing (`new Date(s)`) is
modelled by an arbitrary parameter `parse : String → Option Int`, where
`none` stands for an Invalid Date (time value NaN); every comparison of an
invalid date is `false`, as in JS.
-/

/-! ## Calendar helpers (to name concrete UTC instants) -/

def isLeap (y : Nat) : Bool :=
  y % 4 == 0 && (y % 100 != 0 || y % 400 == 0)

def daysInYear (y : Nat) : Nat :=
  if isLeap y then 366 else 365

/-- Days from 1970-01-01 to the start of year `1970 + n`. -/
def daysToYear : Nat → Nat
  | 0 => 0
  | n + 1 => daysToYear n + daysInYear (1970 + n)

def monthLen (y m : Nat) : Nat :=
  if m = 2 then (if isLeap y then 29 else 28)
  else if m = 4 ∨ m = 6 ∨ m = 9 ∨ m = 11 then 30
  else 31

/-- Days from the start of year `y` to the start of month `m` (1-based). -/
def daysBeforeMonth (y m : Nat) : Nat :=
  (List.range (m - 1)).foldl (fun a i => a + monthLen y (i + 1)) 0

/-- The UTC instant `y-m-d hh:mi:ss`, in milliseconds since the epoch. -/
def utcMillis (y m d hh mi ss : Nat) : Int :=
  (((daysToYear (y - 1970) + daysBeforeMonth y m + (d - 1)) * 86400000
    + hh * 3600000 + mi * 60000 + ss * 1000 : Nat) : Int)

def msPerDay : Int := 86400000

def msPerHour : Int := 3600000

def msPerMinute : Int := 60000

/-! ## Billing window computation (webhook Paid branch, lines 89-103) -/

structure BillingWindow where
  startAt : Int
  endAt : Int
  endGraceAt : Int
  nextScheduleAt : Int
deriving DecidableEq

/--
The date computation of the Paid branch: `startAt = now`,
`endAt = now + 30 days` (`setDate(getDate() + 30)` in UTC),
`endGraceAt = now + 31 days`, and `nextScheduleAt` is `endAt` plus one day
with its time-of-day overwritten by `setHours(10, minuteDraw, 0, 0)`.
-/
def computeWindow (now : Int) (minuteDraw : Nat) : BillingWindow :=
  let startAt := now
  let endAt := now + 30 * msPerDay
  let endGraceAt := now + 31 * msPerDay
  let base := endAt + msPerDay
  let nextScheduleAt := base - base % msPerDay + 10 * msPerHour + (minuteDraw : Int) * msPerMinute
  ⟨startAt, endAt, endGraceAt, nextScheduleAt⟩

/-- Spec-side helper: `t` with its (UTC) time-of-day replaced by `clock`. -/
def forceClock (t clock : Int) : Int :=
  t - t % msPerDay + clock

/-! ## Ledger rows as written by the webhook (table `payment`) -/

/--
A ledger row, after the store has assigned `created_at`.  Instants are kept
numeric (the route serializes them with `toISOString`, an injective
encoding).  `status` is a plain string: the `Payment` interface in
src/src/lib/supabase.ts declares the enum `"Paid" | "Cancelled"`, but the
runtime value is whatever string the route inserts.
-/
structure Row where
  transaction_key : String
  amount : Int
  status : String
  start_at : Int
  end_at : Int
  end_grace_at : Int
  next_schedule_at : Int
  next_schedule_id : String
  created_at : Int
deriving DecidableEq

/-! ## Webhook orchestrator (src/unnamed/part_000, `POST`) -/

structure WebhookPayload where
  payment_id : String
  status : String
deriving DecidableEq

/-- The provider payment object consumed by the route (`PortonePayment`). -/
structure PortonePayment where
  amountTotal : Int
  orderName : String
  billingKey : Option String
  customerId : String
deriving DecidableEq

/-- An entry of the provider schedule listing (`PaymentScheduleItem`). -/
structure SchedItem where
  id : String
  paymentId : String
deriving DecidableEq

/-- Outbound provider schedule calls, recorded as a trace. -/
inductive PAct where
  | registerSchedule (scheduleId : String) (billingKey : String) (orderName : String)
      (customerId : String) (amountTotal : Int) (timeToPay : Int)
  | listSchedules (billingKey : String) (fromAt : Int) (untilAt : Int)
  | deleteSchedules (scheduleIds : List String)
deriving DecidableEq

instance {ε α : Type} [DecidableEq ε] [DecidableEq α] : DecidableEq (Except ε α) := fun a b =>
  match a, b with
  | .error e, .error f =>
    if h : e = f then .isTrue (congrArg Except.error h)
    else .isFalse (fun hh => h (Except.error.inj hh))
  | .ok x, .ok y =>
    if h : x = y then .isTrue (congrArg Except.ok h)
    else .isFalse (fun hh => h (Except.ok.inj hh))
  | .error _, .ok _ => .isFalse (fun hh => Except.noConfusion hh)
  | .ok _, .error _ => .isFalse (fun hh => Except.noConfusion hh)

/--
Oracle for one invocation: outcomes of the external calls the route makes,
plus the ambient clock and randomness.  `payment` is the provider payment
lookup: `Except.error code` stands for a non-success (or rejected) response.
`scheduleRegister` is the Paid-branch schedule registration:
`Except.error e` is a rejected fetch (network failure), `Except.ok b` is an
HTTP response with ok-flag `b`.  `schedulesLookup` is the Cancelled-branch
schedule listing; `scheduleDelete` the schedule deletion.
-/
structure Env where
  secretOk : Bool
  payment : Except Nat PortonePayment
  now : Int
  minuteDraw : Nat
  uuid : String
  insertError : Option String
  insertCreatedAt : Int
  ledger : List Row
  scheduleRegister : Except String Bool
  schedulesLookup : Except String (List SchedItem)
  scheduleDelete : Except String Bool
deriving DecidableEq

/-- The JSON body and HTTP status the route responds with. -/
structure Resp where
  httpStatus : Nat
  success : Bool
  message : Option String
  payment : Option Row
  error : Option String
deriving DecidableEq

def err500 (e : String) : Resp :=
  ⟨500, false, none, none, some e⟩

def ok200 (msg : Option String) (pay : Option Row) : Resp :=
  ⟨200, true, msg, pay, none⟩

/-- Observable outcome of one invocation: response, rows appended to the
ledger, and the outbound schedule calls that were issued. -/
structure Outcome where
  response : Resp
  inserts : List Row
  calls : List PAct
deriving DecidableEq

/-- JS truthiness of an optional string (absent and `""` are falsy). -/
def truthyStr : Option String → Bool
  | none => false
  | some s => !(s == "")

/--
The Cancelled-branch ledger query (lines 180-187): rows with this
`transaction_key` and `status = Paid`, ordered by `created_at` descending,
`limit(1).single()`; `none` when no row matches.
-/
def pickNewer (acc : Option Row) (r : Row) : Option Row :=
  match acc with
  | none => some r
  | some b => if b.created_at < r.created_at then some r else acc

def selectLatestPaid (ledger : List Row) (key : String) : Option Row :=
  (ledger.filter (fun r => r.transaction_key == key && r.status == "Paid")).foldl
    pickNewer none

/--
The route handler `POST` of src/unnamed/part_000, as a function of the
payload and the oracle `Env`.  Every `throw` lands in the outer catch,
which responds 500 with `success: false`.
-/
def POST (payload : WebhookPayload) (env : Env) : Outcome :=
  if env.secretOk = false then
    ⟨err500 "PORTONE_API_SECRET is required", [], []⟩
  else
    match env.payment with
    | .error code => ⟨err500 ("payment lookup failed: " ++ toString code), [], []⟩
    | .ok paymentData =>
      if payload.status == "Paid" then
        let w := computeWindow env.now env.minuteDraw
        let row : Row :=
          { transaction_key := payload.payment_id
            amount := paymentData.amountTotal
            status := "Paid"
            start_at := w.startAt
            end_at := w.endAt
            end_grace_at := w.endGraceAt
            next_schedule_at := w.nextScheduleAt
            next_schedule_id := env.uuid
            created_at := env.insertCreatedAt }
        match env.insertError with
        | some e => ⟨err500 ("supabase insert failed: " ++ e), [], []⟩
        | none =>
          if truthyStr paymentData.billingKey then
            let call := PAct.registerSchedule env.uuid (paymentData.billingKey.getD "")
              paymentData.orderName paymentData.customerId paymentData.amountTotal
              w.nextScheduleAt
            match env.scheduleRegister with
            | .error e => ⟨err500 e, [row], [call]⟩
            | .ok _ => ⟨ok200 (some "payment processed") (some row), [row], [call]⟩
          else
            ⟨ok200 (some "payment processed") (some row), [row], []⟩
      else if payload.status == "Cancelled" then
        match selectLatestPaid env.ledger payload.payment_id with
        | none => ⟨err500 "nothing to cancel", [], []⟩
        | some existingPayment =>
          let row : Row :=
            { transaction_key := existingPayment.transaction_key
              amount := - existingPayment.amount
              status := "Cancel"
              start_at := existingPayment.start_at
              end_at := existingPayment.end_at
              end_grace_at := existingPayment.end_grace_at
              next_schedule_at := existingPayment.next_schedule_at
              next_schedule_id := existingPayment.next_schedule_id
              created_at := env.insertCreatedAt }
          match env.insertError with
          | some e => ⟨err500 ("supabase cancel insert failed: " ++ e), [], []⟩
          | none =>
            if !(existingPayment.next_schedule_id == "") && truthyStr paymentData.billingKey then
              let fromAt := existingPayment.next_schedule_at - msPerDay
              let untilAt := existingPayment.next_schedule_at + msPerDay
              let call0 := PAct.listSchedules (paymentData.billingKey.getD "") fromAt untilAt
              match env.schedulesLookup with
              | .error _ => ⟨ok200 (some "cancellation processed") (some row), [row], [call0]⟩
              | .ok items =>
                match items.find? (fun it => it.paymentId == existingPayment.next_schedule_id) with
                | some it =>
                  ⟨ok200 (some "cancellation processed") (some row), [row], [call0, PAct.deleteSchedules [it.id]]⟩
                | none => ⟨ok200 (some "cancellation processed") (some row), [row], [call0]⟩
            else
              ⟨ok200 (some "cancellation processed") (some row), [row], []⟩
      else
        ⟨ok200 none none, [], []⟩

/-! ## Subscription status resolver (usePaymentStatus, lines 37-94) -/

/--
A payment row as the hook receives it from the store: date fields are the
stored strings, `created_at` is optional (`created_at?: string`).
-/
structure PayRow where
  transaction_key : String
  amount : Int
  status : String
  start_at : String
  end_at : String
  end_grace_at : String
  next_schedule_at : String
  next_schedule_id : String
  created_at : Option String
deriving DecidableEq

/-- `new Date(x)` on an optional string: `none` is an Invalid Date. -/
def jsTime (parse : String → Option Int) : Option String → Option Int
  | none => none
  | some s => parse s

/-- JS `<` on date values; any comparison with NaN is `false`. -/
def dateLT : Option Int → Option Int → Bool
  | some a, some b => a < b
  | _, _ => false

/-- JS `≤` on date values; any comparison with NaN is `false`. -/
def dateLE : Option Int → Option Int → Bool
  | some a, some b => a ≤ b
  | _, _ => false

/--
One step of the grouping loop (lines 44-58): if the key is absent, append
the row; otherwise replace the stored row exactly when both `created_at`
fields are truthy and the new one parses strictly later.
-/
def upsertGroup (parse : String → Option Int) (acc : List (String × PayRow)) (p : PayRow) :
    List (String × PayRow) :=
  match acc.find? (fun kv => kv.1 == p.transaction_key) with
  | none => acc ++ [(p.transaction_key, p)]
  | some kv =>
    if truthyStr p.created_at && truthyStr kv.2.created_at &&
        dateLT (jsTime parse kv.2.created_at) (jsTime parse p.created_at) then
      acc.map (fun e => if e.1 == p.transaction_key then (p.transaction_key, p) else e)
    else acc

/-- The grouped map (`groupedPayments`), in key insertion order. -/
def groupedRows (parse : String → Option Int) (payments : List PayRow) :
    List (String × PayRow) :=
  payments.foldl (upsertGroup parse) []

/-- The active-row filter (lines 63-73). -/
def isActive (parse : String → Option Int) (now : Int) (p : PayRow) : Bool :=
  p.status == "Paid" &&
    dateLE (parse p.start_at) (some now) && dateLE (some now) (parse p.end_grace_at)

/-- `activePayments` (line 64): grouped values passing the active filter. -/
def activeRows (parse : String → Option Int) (payments : List PayRow) (now : Int) :
    List PayRow :=
  ((groupedRows parse payments).map Prod.snd).filter (isActive parse now)

/--
The order induced by the sort comparator of lines 81-84: `sortLE a b` holds
iff the comparator puts `a` at-or-before `b`, i.e. the comparator value is
`≤ 0`; a missing `created_at` on either side, or a NaN difference, compares
as `0`.
-/
def sortLE (parse : String → Option Int) (a b : PayRow) : Bool :=
  if !(truthyStr a.created_at) || !(truthyStr b.created_at) then true
  else
    match jsTime parse b.created_at, jsTime parse a.created_at with
    | some tb, some ta => tb ≤ ta
    | _, _ => true

structure StatusResult where
  subscriptionStatus : String
  transactionKey : Option String
deriving DecidableEq

/--
The pure resolution logic of `usePaymentStatus` (lines 37-94): empty list
is `free`; otherwise group by `transaction_key` keeping the latest row per
key, filter to Paid rows whose period covers `now`, and if any remain take
the head of the stable sort by `created_at` descending.
-/
def resolveStatus (parse : String → Option Int) (payments : List PayRow) (now : Int) :
    StatusResult :=
  if payments.isEmpty then ⟨"free", none⟩
  else
    match ((activeRows parse payments now).mergeSort (sortLE parse)).head? with
    | some latest => ⟨"subscribed", some latest.transaction_key⟩
    | none => ⟨"free", none⟩

/-! ## Helper notions for the resolver theorems -/

/-- A well-formed `created_at`: present, non-empty, and parseable. -/
def wfRow (parse : String → Option Int) (p : PayRow) : Bool :=
  truthyStr p.created_at && (jsTime parse p.created_at).isSome

/-- The parsed `created_at` of a well-formed row (0 for ill-formed rows). -/
def keyTime (parse : String → Option Int) (p : PayRow) : Int :=
  (jsTime parse p.created_at).getD 0

/-- `created_at` comparison used to state maximality. -/
def ctLE (parse : String → Option Int) (q p : PayRow) : Bool :=
  dateLE (jsTime parse q.created_at) (jsTime parse p.created_at)

/-- A total, transitive comparison agreeing with `sortLE` on well-formed
rows; used to transfer the sortedness lemmas of `List.mergeSort`. -/
def totalSortLE (parse : String → Option Int) (a b : PayRow) : Bool :=
  decide (keyTime parse b ≤ keyTime parse a)

/--
A restricted model of JS date parsing, accepting exactly the 24-character
`toISOString` format `YYYY-MM-DDTHH:MM:SS.mmmZ` with in-range fields; used
to build concrete inputs.
-/
def isoParse (s : String) : Option Int :=
  match s.toList with
  | [y1, y2, y3, y4, c1, m1, m2, c2, d1, d2, t1, h1, h2, c3, i1, i2, c4, s1, s2, c5, f1, f2, f3, z1] =>
    if c1 = '-' ∧ c2 = '-' ∧ t1 = 'T' ∧ c3 = ':' ∧ c4 = ':' ∧ c5 = '.' ∧ z1 = 'Z' ∧
        [y1, y2, y3, y4, m1, m2, d1, d2, h1, h2, i1, i2, s1, s2, f1, f2, f3].all Char.isDigit then
      let dv : Char → Nat := fun c => c.toNat - 48
      let y := 1000 * dv y1 + 100 * dv y2 + 10 * dv y3 + dv y4
      let mo := 10 * dv m1 + dv m2
      let d := 10 * dv d1 + dv d2
      let hh := 10 * dv h1 + dv h2
      let mi := 10 * dv i1 + dv i2
      let ss := 10 * dv s1 + dv s2
      let ms := 100 * dv f1 + 10 * dv f2 + dv f3
      if 1970 ≤ y ∧ 1 ≤ mo ∧ mo ≤ 12 ∧ 1 ≤ d ∧ d ≤ monthLen y mo ∧
          hh ≤ 23 ∧ mi ≤ 59 ∧ ss ≤ 59 then
        some (utcMillis y mo d hh mi ss + (ms : Int))
      else none
    else none
  | _ => none

/-! ## Concrete sample inputs -/

/-- A Paid ledger row for transaction `tx1`, amount 10000, schedule id `s1`. -/
def row1 : Row :=
  ⟨"tx1", 10000, "Paid", utcMillis 2024 1 1 0 0 0, utcMillis 2024 1 31 0 0 0,
    utcMillis 2024 2 1 0 0 0, utcMillis 2024 2 1 10 15 0, "s1", utcMillis 2024 1 1 0 0 10⟩

/-- Provider payment without a recurring-billing token. -/
def payNoToken : PortonePayment := ⟨10000, "order1", none, "cust1"⟩

/-- Provider payment with recurring-billing token `bk1`. -/
def payWithToken : PortonePayment := ⟨10000, "order1", some "bk1", "cust1"⟩

/-- Environment: healthy config, successful fetch, ledger `[row1]`, all
provider schedule calls succeed. -/
def envBase : Env :=
  ⟨true, .ok payNoToken, utcMillis 2024 1 1 0 0 0, 15, "u1", none,
    utcMillis 2024 1 15 0 0 0, [row1], .ok true, .ok [], .ok true⟩

/-! ## C4: billing window -/

/--
C4: the billing window computation satisfies `startAt = chargedAt`,
`endAt = chargedAt + 30 days`, `endGraceAt = chargedAt + 31 days`, and
`nextScheduleAt = endAt + 1 day` with its time-of-day replaced by
`10:00:00` plus the supplied minute draw; in particular for
`chargedAt = 2024-01-01T00:00:00Z` and draw 15 it yields
`endAt = 2024-01-31T00:00:00Z`, `endGraceAt = 2024-02-01T00:00:00Z`,
`nextScheduleAt = 2024-02-01T10:15:00Z`.
-/
theorem computeWindow_spec (chargedAt : Int) (draw : Nat) (hdraw : draw ≤ 59) :
    (computeWindow chargedAt draw).startAt = chargedAt ∧
    (computeWindow chargedAt draw).endAt = chargedAt + 30 * msPerDay ∧
    (computeWindow chargedAt draw).endGraceAt = chargedAt + 31 * msPerDay ∧
    (computeWindow chargedAt draw).nextScheduleAt =
      forceClock ((computeWindow chargedAt draw).endAt + msPerDay)
        (10 * msPerHour + (draw : Int) * msPerMinute) ∧
    computeWindow (utcMillis 2024 1 1 0 0 0) 15 =
      ⟨utcMillis 2024 1 1 0 0 0, utcMillis 2024 1 31 0 0 0,
        utcMillis 2024 2 1 0 0 0, utcMillis 2024 2 1 10 15 0⟩ := by
  refine ⟨rfl, rfl, rfl, ?_, by decide⟩
  simp only [computeWindow, forceClock]
  ring

theorem computeWindow_spec_witness :
    (15 : Nat) ≤ 59 ∧
      (computeWindow (utcMillis 2024 1 1 0 0 0) 15).endAt = utcMillis 2024 1 31 0 0 0 := by
  refine ⟨by decide, ?_⟩
  have h := computeWindow_spec (utcMillis 2024 1 1 0 0 0) 15 (by decide)
  rw [h.2.2.2.2]

/-! ## C5: fetch failure aborts the Paid path -/

/--
C5: for every inbound Paid event, if the provider payment lookup returns a
non-success response then the handler responds with an error (HTTP 500,
`success: false`) and no ledger record is inserted.
-/
theorem paid_fetch_failure_aborts (payload : WebhookPayload) (env : Env) (code : Nat)
    (hs : payload.status = "Paid") (hp : env.payment = Except.error code) :
    (POST payload env).response.httpStatus = 500 ∧
    (POST payload env).response.success = false ∧
    (POST payload env).inserts = [] := by
  unfold POST
  rw [hp]
  rcases env.secretOk with _ | _ <;> simp [err500]

theorem paid_fetch_failure_aborts_witness :
    (⟨"tx9", "Paid"⟩ : WebhookPayload).status = "Paid" ∧
    (POST ⟨"tx9", "Paid"⟩ { envBase with payment := .error 404 }).inserts = [] := by
  refine ⟨rfl, ?_⟩
  exact (paid_fetch_failure_aborts ⟨"tx9", "Paid"⟩ { envBase with payment := .error 404 }
    404 rfl rfl).2.2

/-! ## Facts about the Cancelled-branch ledger query -/

theorem foldl_pickNewer_some (l : List Row) :
    ∀ (acc : Option Row) (r : Row), l.foldl pickNewer acc = some r → acc = some r ∨ r ∈ l := by
  induction l with
  | nil => intro acc r h; exact Or.inl h
  | cons x xs ih =>
    intro acc r h
    rcases ih (pickNewer acc x) r h with h1 | h1
    · rcases acc with _ | b
      · simp only [pickNewer] at h1
        exact Or.inr (by simp [← Option.some.inj h1])
      · simp only [pickNewer] at h1
        split at h1
        · exact Or.inr (by simp [← Option.some.inj h1])
        · exact Or.inl h1
    · exact Or.inr (List.mem_cons_of_mem x h1)

theorem selectLatestPaid_some (ledger : List Row) (key : String) (r : Row)
    (h : selectLatestPaid ledger key = some r) :
    r ∈ ledger ∧ r.transaction_key = key ∧ r.status = "Paid" := by
  unfold selectLatestPaid at h
  rcases foldl_pickNewer_some _ _ _ h with h1 | h1
  · exact absurd h1 (by simp)
  · have h2 := List.mem_filter.mp h1
    refine ⟨h2.1, ?_, ?_⟩
    · have := h2.2
      simp only [Bool.and_eq_true, beq_iff_eq] at this
      exact this.1
    · have := h2.2
      simp only [Bool.and_eq_true, beq_iff_eq] at this
      exact this.2

theorem selectLatestPaid_none (ledger : List Row) (key : String)
    (h : ∀ r ∈ ledger, ¬(r.transaction_key = key ∧ r.status = "Paid")) :
    selectLatestPaid ledger key = none := by
  unfold selectLatestPaid
  have hf : ledger.filter (fun r => r.transaction_key == key && r.status == "Paid") = [] := by
    rw [List.filter_eq_nil_iff]
    intro r hr
    simp only [Bool.and_eq_true, beq_iff_eq, not_and]
    intro h1 h2
    exact h r hr ⟨h1, h2⟩
  rw [hf]
  rfl

/-! ## C6: cancellation with no prior Paid row -/

/--
C6: for every inbound Cancelled event whose payment id matches no existing
ledger row with that transactionKey and status Paid, the handler returns a
failure response (HTTP 500, `success: false`) and inserts zero ledger
records.
-/
theorem cancel_without_paid_row_fails (payload : WebhookPayload) (env : Env)
    (hs : payload.status = "Cancelled")
    (hnone : ∀ r ∈ env.ledger, ¬(r.transaction_key = payload.payment_id ∧ r.status = "Paid")) :
    (POST payload env).response.httpStatus = 500 ∧
    (POST payload env).response.success = false ∧
    (POST payload env).inserts = [] := by
  unfold POST
  rw [hs, selectLatestPaid_none env.ledger payload.payment_id hnone]
  rcases env.secretOk with _ | _
  · simp [err500]
  · rcases env.payment with code | pay <;> simp [err500]

theorem cancel_without_paid_row_fails_witness :
    (⟨"tx9", "Cancelled"⟩ : WebhookPayload).status = "Cancelled" ∧
    (POST ⟨"tx9", "Cancelled"⟩ envBase).response.success = false := by
  refine ⟨rfl, ?_⟩
  exact (cancel_without_paid_row_fails ⟨"tx9", "Cancelled"⟩ envBase rfl (by decide)).2.1

/-! ## C10: the transaction key is the provider payment id -/

/--
C10: every record inserted by a Paid event carries
`transaction_key = payment_id`; the Cancelled path looks up the lineage by
the same `payment_id`, so a cancellation can succeed only if some Paid
ledger row already has that payment id as its transaction key.
-/
theorem transaction_key_is_payment_id (payload : WebhookPayload) (env : Env) :
    (payload.status = "Paid" →
      ∀ r ∈ (POST payload env).inserts, r.transaction_key = payload.payment_id) ∧
    (payload.status = "Cancelled" → (POST payload env).response.success = true →
      ∃ r ∈ env.ledger, r.transaction_key = payload.payment_id ∧ r.status = "Paid") := by
  constructor
  · intro hs
    unfold POST
    rw [hs]
    split
    · simp
    · split
      · simp
      · split
        · split
          · simp
          · split
            · split <;> simp
            · simp
        · simp_all
  · intro hs
    unfold POST
    rw [hs]
    split
    · simp [err500]
    · split
      · simp [err500]
      · split
        · simp_all
        · split
          · rcases hsel : selectLatestPaid env.ledger payload.payment_id with _ | e
            · simp [err500]
            · intro _
              obtain ⟨hmem, hkey, hstat⟩ := selectLatestPaid_some _ _ _ hsel
              exact ⟨e, hmem, hkey, hstat⟩
          · simp_all

theorem transaction_key_is_payment_id_witness :
    (∀ r ∈ (POST ⟨"tx1", "Paid"⟩ envBase).inserts, r.transaction_key = "tx1") ∧
    (∃ r ∈ envBase.ledger, r.transaction_key = "tx1" ∧ r.status = "Paid") :=
  ⟨(transaction_key_is_payment_id ⟨"tx1", "Paid"⟩ envBase).1 rfl,
    (transaction_key_is_payment_id ⟨"tx1", "Cancelled"⟩ envBase).2 rfl (by decide)⟩

/-! ## C1: the cancellation insert -/

/--
C1 (code bug, lines 196-211): processing a Cancelled event for `tx1` with a
Paid row present inserts exactly one record copying `transaction_key`,
`start_at`, `end_at`, `end_grace_at`, `next_schedule_at`,
`next_schedule_id` of the Paid row with the amount negated — but its
`status` is the string `"Cancel"`, not `"Cancelled"`, contradicting the
`Payment` interface of src/src/lib/supabase.ts, which declares
`status: "Paid" | "Cancelled"`.
-/
theorem cancel_insert_status_bug :
    (POST ⟨"tx1", "Cancelled"⟩ envBase).inserts =
      [⟨"tx1", -10000, "Cancel", row1.start_at, row1.end_at, row1.end_grace_at,
        row1.next_schedule_at, "s1", envBase.insertCreatedAt⟩] ∧
    (∀ r ∈ (POST ⟨"tx1", "Cancelled"⟩ envBase).inserts, r.status ≠ "Cancelled") ∧
    (POST ⟨"tx1", "Cancelled"⟩ envBase).response.success = true ∧
    envBase.ledger = [row1] ∧ row1.amount = 10000 ∧ row1.status = "Paid" := by
  decide

/-! ## C7: failures after a successful ledger insert -/

/-- Environment where the Paid-branch schedule registration fetch rejects
(network failure); the provider payment carries a billing token. -/
def envRegReject : Env :=
  ⟨true, .ok payWithToken, utcMillis 2024 1 1 0 0 0, 15, "u1", none,
    utcMillis 2024 1 15 0 0 0, [row1], .error "network down", .ok [], .ok true⟩

/-- Environment where the Cancelled-branch schedule lookup rejects. -/
def envLookupReject : Env :=
  ⟨true, .ok payWithToken, utcMillis 2024 1 1 0 0 0, 15, "u1", none,
    utcMillis 2024 1 15 0 0 0, [row1], .ok true, .error "lookup down", .ok true⟩

/--
C7 (code bug): on the Paid path a rejected schedule-registration fetch is
not caught (part_000 line 133 has no try/catch, unlike the Cancelled
branch), so the handler responds 500 `success: false` even though the
ledger insert already succeeded — contradicting the comment on line 161
that registration failure should only be logged.  A non-ok registration
response is swallowed as documented, and Cancelled-branch lookup failures
are swallowed too.
-/
theorem post_insert_failure_bug :
    (POST ⟨"tx2", "Paid"⟩ envRegReject).response.httpStatus = 500 ∧
    (POST ⟨"tx2", "Paid"⟩ envRegReject).response.success = false ∧
    (POST ⟨"tx2", "Paid"⟩ envRegReject).response.payment = none ∧
    (POST ⟨"tx2", "Paid"⟩ envRegReject).inserts ≠ [] ∧
    (POST ⟨"tx2", "Paid"⟩ { envRegReject with scheduleRegister := .ok false }).response.success
        = true ∧
    ((POST ⟨"tx2", "Paid"⟩ { envRegReject with scheduleRegister := .ok false }).response.payment
        = (POST ⟨"tx2", "Paid"⟩ { envRegReject with scheduleRegister := .ok false }).inserts.head?) ∧
    (POST ⟨"tx1", "Cancelled"⟩ envLookupReject).response.success = true := by
  decide

/-! ## C8: events that are neither Paid nor Cancelled -/

/--
C8 counterexample: the provider payment lookup precedes the status branch
(part_000 lines 66-80), so an event with unrecognized status still responds
HTTP 500 `success: false` when that lookup fails, refuting the claim that
every such event is acknowledged with HTTP 200.
-/
theorem unrecognized_status_counterexample :
    (POST ⟨"p1", "Refunded"⟩ { envBase with payment := .error 502 }).response.httpStatus = 500 ∧
    (POST ⟨"p1", "Refunded"⟩ { envBase with payment := .error 502 }).response.success = false ∧
    (POST ⟨"p1", "Refunded"⟩ { envBase with payment := .error 502 }).inserts = [] := by
  decide

/--
C8 (amended): an event whose status is neither Paid nor Cancelled never
inserts a ledger record; and provided the configuration is present and the
provider payment lookup succeeds, the handler responds HTTP 200
`{success: true}` with no payment and no message.
-/
theorem unrecognized_status_acknowledged (payload : WebhookPayload) (env : Env)
    (h1 : payload.status ≠ "Paid") (h2 : payload.status ≠ "Cancelled") :
    (POST payload env).inserts = [] ∧
    (∀ pay : PortonePayment, env.secretOk = true → env.payment = Except.ok pay →
      (POST payload env).response = ⟨200, true, none, none, none⟩) := by
  have hb1 : (payload.status == "Paid") = false := beq_eq_false_iff_ne.mpr h1
  have hb2 : (payload.status == "Cancelled") = false := beq_eq_false_iff_ne.mpr h2
  constructor
  · unfold POST
    rw [hb1, hb2]
    split
    · rfl
    · split
      · rfl
      · simp
  · intro pay hsec hp
    unfold POST
    rw [hb1, hb2, hsec, hp]
    simp [ok200]

theorem unrecognized_status_acknowledged_witness :
    (POST ⟨"p1", "Refunded"⟩ envBase).response = ⟨200, true, none, none, none⟩ :=
  (unrecognized_status_acknowledged ⟨"p1", "Refunded"⟩ envBase (by decide) (by decide)).2
    payNoToken rfl rfl

/-! ## Comparison facts for well-formed rows -/

theorem wfRow_elim (parse : String → Option Int) {p : PayRow} (hp : wfRow parse p = true) :
    truthyStr p.created_at = true ∧ ∃ t, jsTime parse p.created_at = some t := by
  rw [wfRow, Bool.and_eq_true] at hp
  exact ⟨hp.1, Option.isSome_iff_exists.mp hp.2⟩

theorem ctLE_of_keyTime (parse : String → Option Int) {q p : PayRow}
    (hq : wfRow parse q = true) (hp : wfRow parse p = true)
    (h : keyTime parse q ≤ keyTime parse p) : ctLE parse q p = true := by
  obtain ⟨_, tq, htq⟩ := wfRow_elim parse hq
  obtain ⟨_, tp, htp⟩ := wfRow_elim parse hp
  simp only [keyTime, htq, htp, Option.getD_some] at h
  simp [ctLE, dateLE, htq, htp, h]

theorem keyTime_of_ctLE (parse : String → Option Int) {q p : PayRow}
    (hq : wfRow parse q = true) (hp : wfRow parse p = true)
    (h : ctLE parse q p = true) : keyTime parse q ≤ keyTime parse p := by
  obtain ⟨_, tq, htq⟩ := wfRow_elim parse hq
  obtain ⟨_, tp, htp⟩ := wfRow_elim parse hp
  rw [ctLE, htq, htp] at h
  simp only [dateLE, decide_eq_true_eq] at h
  simp only [keyTime, htq, htp, Option.getD_some]
  exact h

theorem ctLE_refl (parse : String → Option Int) {p : PayRow} (hp : wfRow parse p = true) :
    ctLE parse p p = true :=
  ctLE_of_keyTime parse hp hp le_rfl

theorem ctLE_trans_lt (parse : String → Option Int) {q e p : PayRow}
    (h1 : ctLE parse q e = true)
    (h2 : dateLT (jsTime parse e.created_at) (jsTime parse p.created_at) = true) :
    ctLE parse q p = true := by
  rw [ctLE] at h1 ⊢
  rcases hq : jsTime parse q.created_at with _ | tq <;> rw [hq] at h1
  · rcases he : jsTime parse e.created_at with _ | te <;> rw [he] at h1 <;>
      simp [dateLE] at h1
  · rcases he : jsTime parse e.created_at with _ | te <;> rw [he] at h1
    · simp [dateLE] at h1
    · rw [he] at h2
      rcases hp : jsTime parse p.created_at with _ | tp <;> rw [hp] at h2
      · simp [dateLT] at h2
      · simp only [dateLE, decide_eq_true_eq] at h1 ⊢
        simp only [dateLT, decide_eq_true_eq] at h2
        omega

theorem ctLE_of_not_lt (parse : String → Option Int) {e p : PayRow}
    (he : wfRow parse e = true) (hp : wfRow parse p = true)
    (h : ¬ dateLT (jsTime parse e.created_at) (jsTime parse p.created_at) = true) :
    ctLE parse p e = true := by
  obtain ⟨_, te, hte⟩ := wfRow_elim parse he
  obtain ⟨_, tp, htp⟩ := wfRow_elim parse hp
  rw [hte, htp] at h
  simp only [dateLT, decide_eq_true_eq] at h
  rw [ctLE, hte, htp]
  simp only [dateLE, decide_eq_true_eq]
  omega

/-! ## The grouping invariant -/

theorem assocUnique {α β : Type} :
    ∀ (l : List (α × β)), (l.map Prod.fst).Nodup →
      ∀ (k : α) (a b : β), (k, a) ∈ l → (k, b) ∈ l → a = b := by
  intro l
  induction l with
  | nil => intro _ k a b ha _; simp at ha
  | cons x t ih =>
    intro hnd k a b ha hb
    rw [List.map_cons, List.nodup_cons] at hnd
    rcases List.mem_cons.mp ha with ha1 | ha1 <;> rcases List.mem_cons.mp hb with hb1 | hb1
    · exact congrArg Prod.snd (ha1.trans hb1.symm)
    · subst ha1
      exact absurd (List.mem_map.mpr ⟨(k, b), hb1, rfl⟩) hnd.1
    · subst hb1
      exact absurd (List.mem_map.mpr ⟨(k, a), ha1, rfl⟩) hnd.1
    · exact ih hnd.2 k a b ha1 hb1

/--
Invariant of the grouping fold: after processing `seen`, the accumulator
maps each key to a row of `seen` with that key which is `created_at`-maximal
among the rows of `seen` with that key, every processed key is present, and
keys are not duplicated.
-/
structure GInv (parse : String → Option Int) (seen : List PayRow)
    (acc : List (String × PayRow)) : Prop where
  chr : ∀ kp ∈ acc, kp.2.transaction_key = kp.1 ∧ kp.2 ∈ seen ∧
    ∀ q ∈ seen, q.transaction_key = kp.1 → ctLE parse q kp.2 = true
  cov : ∀ p ∈ seen, ∃ w, (p.transaction_key, w) ∈ acc
  ndk : (acc.map Prod.fst).Nodup

theorem ginv_nil (parse : String → Option Int) : GInv parse [] [] :=
  ⟨by simp, by simp, by simp⟩

theorem ginv_step (parse : String → Option Int) (seen : List PayRow)
    (acc : List (String × PayRow)) (p : PayRow)
    (hwf : ∀ q ∈ seen, wfRow parse q = true) (hp : wfRow parse p = true)
    (h : GInv parse seen acc) : GInv parse (seen ++ [p]) (upsertGroup parse acc p) := by
  unfold upsertGroup
  rcases hfind : acc.find? (fun kv => kv.1 == p.transaction_key) with _ | kv <;> simp only [hfind]
  · have hnone : ∀ e ∈ acc, e.1 ≠ p.transaction_key := by
      intro e he
      have h1 := List.find?_eq_none.mp hfind e he
      simpa using h1
    refine ⟨?_, ?_, ?_⟩
    · intro kp hkp
      rcases List.mem_append.mp hkp with h1 | h1
      · obtain ⟨hk, hmem, hmax⟩ := h.chr kp h1
        refine ⟨hk, List.mem_append_left _ hmem, ?_⟩
        intro q hq hqk
        rcases List.mem_append.mp hq with hq1 | hq1
        · exact hmax q hq1 hqk
        · rw [List.mem_singleton] at hq1
          subst hq1
          exact absurd hqk.symm (hnone kp h1)
      · rw [List.mem_singleton] at h1
        subst h1
        refine ⟨rfl, List.mem_append_right _ (by simp), ?_⟩
        intro q hq hqk
        rcases List.mem_append.mp hq with hq1 | hq1
        · obtain ⟨w, hw⟩ := h.cov q hq1
          exact absurd hqk (hnone (q.transaction_key, w) hw)
        · rw [List.mem_singleton] at hq1
          subst hq1
          exact ctLE_refl parse hp
    · intro q hq
      rcases List.mem_append.mp hq with hq1 | hq1
      · obtain ⟨w, hw⟩ := h.cov q hq1
        exact ⟨w, List.mem_append_left _ hw⟩
      · rw [List.mem_singleton] at hq1
        subst hq1
        exact ⟨q, List.mem_append_right _ (by simp)⟩
    · rw [List.map_append, List.nodup_append]
      refine ⟨h.ndk, by simp, ?_⟩
      intro a ha hb
      simp only [List.map_cons, List.map_nil, List.mem_singleton] at hb
      subst hb
      obtain ⟨e, he, hfst⟩ := List.mem_map.mp ha
      exact hnone e he hfst
  · have hkmem : kv ∈ acc := List.mem_of_find?_eq_some hfind
    have hkey : kv.1 = p.transaction_key := by
      have h1 := List.find?_some hfind
      simpa using h1
    obtain ⟨hek, hemem, hemax⟩ := h.chr kv hkmem
    have hwfe : wfRow parse kv.2 = true := hwf kv.2 hemem
    by_cases hc : (truthyStr p.created_at && truthyStr kv.2.created_at &&
        dateLT (jsTime parse kv.2.created_at) (jsTime parse p.created_at)) = true
    · rw [if_pos hc]
      rw [Bool.and_eq_true, Bool.and_eq_true] at hc
      obtain ⟨⟨hct1, hct2⟩, hclt⟩ := hc
      refine ⟨?_, ?_, ?_⟩
      · intro kp hkp
        obtain ⟨e, he, heq⟩ := List.mem_map.mp hkp
        have heq2 : (if e.1 == p.transaction_key then (p.transaction_key, p) else e) = kp := heq
        by_cases hke : (e.1 == p.transaction_key) = true
        · rw [if_pos hke] at heq2
          subst heq2
          refine ⟨rfl, List.mem_append_right _ (by simp), ?_⟩
          intro q hq hqk
          rcases List.mem_append.mp hq with hq1 | hq1
          · have hq2 : q.transaction_key = kv.1 := by rw [hkey]; exact hqk
            exact ctLE_trans_lt parse (hemax q hq1 hq2) hclt
          · rw [List.mem_singleton] at hq1
            subst hq1
            exact ctLE_refl parse hp
        · rw [if_neg hke] at heq2
          subst heq2
          obtain ⟨hk2, hmem2, hmax2⟩ := h.chr e he
          refine ⟨hk2, List.mem_append_left _ hmem2, ?_⟩
          intro q hq hqk
          rcases List.mem_append.mp hq with hq1 | hq1
          · exact hmax2 q hq1 hqk
          · rw [List.mem_singleton] at hq1
            subst hq1
            exact absurd hqk.symm (by simpa using hke)
      · intro q hq
        rcases List.mem_append.mp hq with hq1 | hq1
        · by_cases hqp : q.transaction_key = p.transaction_key
          · refine ⟨p, List.mem_map.mpr ⟨kv, hkmem, ?_⟩⟩
            simp [hkey, hqp]
          · obtain ⟨w, hw⟩ := h.cov q hq1
            refine ⟨w, List.mem_map.mpr ⟨(q.transaction_key, w), hw, ?_⟩⟩
            simp [hqp]
        · rw [List.mem_singleton] at hq1
          subst hq1
          refine ⟨q, List.mem_map.mpr ⟨kv, hkmem, ?_⟩⟩
          simp [hkey]
      · have hmf : ((acc.map
            (fun e => if e.1 == p.transaction_key then (p.transaction_key, p) else e)).map
              Prod.fst) = acc.map Prod.fst := by
          rw [List.map_map]
          refine List.map_congr_left ?_
          intro e he
          by_cases hke : (e.1 == p.transaction_key) = true
          · have he1 : e.1 = p.transaction_key := by simpa using hke
            simp [Function.comp, hke, he1]
          · simp [Function.comp, hke]
        rw [hmf]
        exact h.ndk
    · rw [if_neg hc]
      refine ⟨?_, ?_, h.ndk⟩
      · intro kp hkp
        obtain ⟨hk2, hmem2, hmax2⟩ := h.chr kp hkp
        refine ⟨hk2, List.mem_append_left _ hmem2, ?_⟩
        intro q hq hqk
        rcases List.mem_append.mp hq with hq1 | hq1
        · exact hmax2 q hq1 hqk
        · rw [List.mem_singleton] at hq1
          subst hq1
          have hkpkey : kp.1 = kv.1 := by rw [hkey, ← hqk]
          have hkp2 : kp.2 = kv.2 := by
            refine assocUnique acc h.ndk kv.1 kp.2 kv.2 ?_ ?_
            · rw [← hkpkey]
              simpa using hkp
            · simpa using hkmem
          rw [hkp2]
          have hnc : ¬ dateLT (jsTime parse kv.2.created_at) (jsTime parse q.created_at) = true := by
            intro hlt
            apply hc
            rw [Bool.and_eq_true, Bool.and_eq_true]
            exact ⟨⟨(wfRow_elim parse hp).1, (wfRow_elim parse hwfe).1⟩, hlt⟩
          exact ctLE_of_not_lt parse hwfe hp hnc
      · intro q hq
        rcases List.mem_append.mp hq with hq1 | hq1
        · exact h.cov q hq1
        · rw [List.mem_singleton] at hq1
          subst hq1
          refine ⟨kv.2, ?_⟩
          rw [← hkey]
          simpa using hkmem

theorem ginv_fold (parse : String → Option Int) :
    ∀ (l seen : List PayRow) (acc : List (String × PayRow)),
      (∀ q ∈ seen ++ l, wfRow parse q = true) → GInv parse seen acc →
      GInv parse (seen ++ l) (l.foldl (upsertGroup parse) acc) := by
  intro l
  induction l with
  | nil => intro seen acc hwf hin; simpa using hin
  | cons x t ih =>
    intro seen acc hwf hin
    have hx : wfRow parse x = true := hwf x (by simp)
    have h1 : GInv parse (seen ++ [x]) (upsertGroup parse acc x) :=
      ginv_step parse seen acc x (fun q hq => hwf q (List.mem_append_left _ hq)) hx hin
    have h2 := ih (seen ++ [x]) (upsertGroup parse acc x)
      (by rw [← List.append_cons]; exact hwf) h1
    rw [← List.append_cons] at h2
    exact h2

theorem groupedRows_invariant (parse : String → Option Int) (l : List PayRow)
    (hwf : ∀ q ∈ l, wfRow parse q = true) : GInv parse l (groupedRows parse l) := by
  have h := ginv_fold parse l [] [] (by simpa using hwf) (ginv_nil parse)
  simpa [groupedRows] using h

/-! ## The sort comparator on well-formed rows -/

theorem totalSortLE_trans (parse : String → Option Int) :
    ∀ (a b c : PayRow), totalSortLE parse a b → totalSortLE parse b c → totalSortLE parse a c := by
  intro a b c h1 h2
  simp only [totalSortLE, decide_eq_true_eq] at h1 h2 ⊢
  omega

theorem totalSortLE_total (parse : String → Option Int) :
    ∀ (a b : PayRow), totalSortLE parse a b || totalSortLE parse b a := by
  intro a b
  simp only [totalSortLE, Bool.or_eq_true, decide_eq_true_eq]
  omega

theorem sortLE_eq_totalSortLE (parse : String → Option Int) {a b : PayRow}
    (ha : wfRow parse a = true) (hb : wfRow parse b = true) :
    sortLE parse a b = totalSortLE parse a b := by
  obtain ⟨hta, ta, hpa⟩ := wfRow_elim parse ha
  obtain ⟨htb, tb, hpb⟩ := wfRow_elim parse hb
  rw [sortLE, totalSortLE, hta, htb, hpa, hpb]
  simp [keyTime, hpa, hpb]

theorem mergeSort_sortLE_eq (parse : String → Option Int) (l : List PayRow)
    (hwf : ∀ q ∈ l, wfRow parse q = true) :
    l.mergeSort (sortLE parse) = l.mergeSort (totalSortLE parse) := by
  have h := @List.map_mergeSort PayRow PayRow (sortLE parse) (totalSortLE parse) id l
    (fun a ha b hb => sortLE_eq_totalSortLE parse (hwf a ha) (hwf b hb))
  simpa using h

/--
The head of the sorted active list is a member with maximal `created_at`
among all elements, provided every element is well-formed.
-/
theorem mergeSort_head_max (parse : String → Option Int) (l : List PayRow)
    (hwf : ∀ q ∈ l, wfRow parse q = true) (p : PayRow)
    (hh : (l.mergeSort (sortLE parse)).head? = some p) :
    p ∈ l ∧ ∀ q ∈ l, keyTime parse q ≤ keyTime parse p := by
  rw [mergeSort_sortLE_eq parse l hwf] at hh
  have hsorted := @List.sorted_mergeSort PayRow (totalSortLE parse)
    (totalSortLE_trans parse) (totalSortLE_total parse) l
  rcases hms : l.mergeSort (totalSortLE parse) with _ | ⟨p0, rest⟩
  · rw [hms] at hh
    simp at hh
  · rw [hms] at hh hsorted
    have hp0 : p0 = p := by simpa using hh
    subst hp0
    have hmem : p0 ∈ l := by
      have h2 : p0 ∈ l.mergeSort (totalSortLE parse) := by
        rw [hms]
        simp
      exact List.mem_mergeSort.mp h2
    refine ⟨hmem, ?_⟩
    intro q hq
    have hq2 : q ∈ p0 :: rest := by
      have h2 : q ∈ l.mergeSort (totalSortLE parse) := List.mem_mergeSort.mpr hq
      rw [hms] at h2
      exact h2
    rcases List.mem_cons.mp hq2 with hq3 | hq3
    · subst hq3
      exact le_rfl
    · have h1 := (List.pairwise_cons.mp hsorted).1 q hq3
      simpa [totalSortLE] using h1

/-! ## C2: the resolver returns the newest active current row -/

/--
C2: for every record list whose `created_at` fields are present and
parseable (as the data model guarantees for store-assigned insertion
timestamps), the resolver groups the rows into per-lineage current rows
(each grouped row belongs to the list, carries its group key, and is
`created_at`-maximal in its lineage); when some current row is Paid and
covers `now` the resolver returns `subscribed` with the transaction key of
a `created_at`-maximal such row, and otherwise — in particular on the empty
ledger — it returns `free` with a null transaction key.
-/
theorem resolveStatus_spec (parse : String → Option Int) (payments : List PayRow) (now : Int)
    (hwf : ∀ p ∈ payments, wfRow parse p = true) :
    (∀ kp ∈ groupedRows parse payments, kp.2 ∈ payments ∧ kp.2.transaction_key = kp.1 ∧
      ∀ q ∈ payments, q.transaction_key = kp.1 → ctLE parse q kp.2 = true) ∧
    (activeRows parse payments now = [] → resolveStatus parse payments now = ⟨"free", none⟩) ∧
    (activeRows parse payments now ≠ [] →
      ∃ p ∈ activeRows parse payments now,
        (∀ q ∈ activeRows parse payments now, ctLE parse q p = true) ∧
        resolveStatus parse payments now = ⟨"subscribed", some p.transaction_key⟩) := by
  have hginv := groupedRows_invariant parse payments hwf
  have hact_wf : ∀ q ∈ activeRows parse payments now, wfRow parse q = true := by
    intro q hq
    have hq1 := (List.mem_filter.mp hq).1
    obtain ⟨kp, hkp, hkp2⟩ := List.mem_map.mp hq1
    exact hwf q (hkp2 ▸ (hginv.chr kp hkp).2.1)
  refine ⟨?_, ?_, ?_⟩
  · intro kp hkp
    obtain ⟨h1, h2, h3⟩ := hginv.chr kp hkp
    exact ⟨h2, h1, h3⟩
  · intro hact
    unfold resolveStatus
    by_cases hemp : payments.isEmpty = true
    · rw [if_pos hemp]
    · rw [if_neg hemp, hact]
      simp
  · intro hact
    unfold resolveStatus
    have hemp : payments.isEmpty = false := by
      rcases hpay : payments with _ | ⟨a, t⟩
      · rw [hpay] at hact
        exact absurd rfl hact
      · rfl
    rw [if_neg (by simp [hemp])]
    have hlen : (activeRows parse payments now).mergeSort (sortLE parse) ≠ [] := by
      intro hnil
      apply hact
      have hperm := List.mergeSort_perm (activeRows parse payments now) (sortLE parse)
      rw [hnil] at hperm
      exact (hperm.symm.eq_nil)
    rcases hh : ((activeRows parse payments now).mergeSort (sortLE parse)).head? with _ | p
    · rw [List.head?_eq_none_iff] at hh
      exact absurd hh hlen
    · obtain ⟨hmem, hmax⟩ := mergeSort_head_max parse _ hact_wf p hh
      refine ⟨p, hmem, ?_, ?_⟩
      · intro q hq
        exact ctLE_of_keyTime parse (hact_wf q hq) (hact_wf p hmem) (hmax q hq)
      · simp only [hh]

/-- A record list the hook could receive: one active Paid row. -/
def prow1 : PayRow :=
  ⟨"tx1", 10000, "Paid", "2024-01-01T00:00:00.000Z", "2024-01-31T00:00:00.000Z",
    "2024-02-01T00:00:00.000Z", "2024-02-01T10:15:00.000Z", "s1",
    some "2024-01-01T00:00:10.000Z"⟩

def now1 : Int := utcMillis 2024 1 15 0 0 0

theorem resolveStatus_spec_witness :
    (∀ p ∈ [prow1], wfRow isoParse p = true) ∧
    (∃ p ∈ activeRows isoParse [prow1] now1,
      (∀ q ∈ activeRows isoParse [prow1] now1, ctLE isoParse q p = true) ∧
      resolveStatus isoParse [prow1] now1 = ⟨"subscribed", some p.transaction_key⟩) :=
  ⟨by decide, (resolveStatus_spec isoParse [prow1] now1 (by decide)).2.2 (by decide)⟩

/-! ## C9: unparsable period timestamps never activate a row -/

/--
C9: a row whose `start_at` or `end_grace_at` does not parse is treated as
non-active — the filter rejects it, it never appears among the active rows,
and it can never be the row selected to make the status `subscribed`;
resolution itself is total and does not fail.
-/
theorem unparsable_dates_non_active (parse : String → Option Int) (payments : List PayRow)
    (now : Int) (r : PayRow)
    (hr : parse r.start_at = none ∨ parse r.end_grace_at = none) :
    isActive parse now r = false ∧ r ∉ activeRows parse payments now ∧
    ((activeRows parse payments now).mergeSort (sortLE parse)).head? ≠ some r := by
  have h1 : isActive parse now r = false := by
    rcases hr with h | h
    · simp [isActive, h, dateLE]
    · simp [isActive, h, dateLE]
  have h2 : r ∉ activeRows parse payments now := by
    intro hmem
    have h3 := (List.mem_filter.mp hmem).2
    rw [h1] at h3
    cases h3
  refine ⟨h1, h2, ?_⟩
  intro hh
  apply h2
  rcases hms : (activeRows parse payments now).mergeSort (sortLE parse) with _ | ⟨a, t⟩
  · rw [hms] at hh
    simp at hh
  · rw [hms] at hh
    have ha : a = r := by simpa using hh
    have hmem : r ∈ (activeRows parse payments now).mergeSort (sortLE parse) := by
      rw [hms, ha]
      exact List.mem_cons_self _ _
    exact List.mem_mergeSort.mp hmem

/-- A Paid row with an unparsable `start_at`. -/
def prowBad : PayRow :=
  ⟨"tx2", 5000, "Paid", "not-a-date", "2024-01-31T00:00:00.000Z",
    "2024-02-01T00:00:00.000Z", "2024-02-01T10:15:00.000Z", "s2",
    some "2024-01-02T00:00:00.000Z"⟩

theorem unparsable_dates_non_active_witness :
    (isoParse prowBad.start_at = none ∨ isoParse prowBad.end_grace_at = none) ∧
    (isActive isoParse now1 prowBad = false ∧
      prowBad ∉ activeRows isoParse [prow1, prowBad] now1 ∧
      ((activeRows isoParse [prow1, prowBad] now1).mergeSort (sortLE isoParse)).head?
        ≠ some prowBad) :=
  ⟨Or.inl (by decide),
    unparsable_dates_non_active isoParse [prow1, prowBad] now1 prowBad (Or.inl (by decide))⟩

/-! ## C3: order dependence of the resolver -/

theorem resolveStatus_of_active_nil (parse : String → Option Int) (l : List PayRow) (now : Int)
    (hact : activeRows parse l now = []) : resolveStatus parse l now = ⟨"free", none⟩ := by
  unfold resolveStatus
  by_cases hemp : l.isEmpty = true
  · rw [if_pos hemp]
  · rw [if_neg hemp, hact]
    simp

theorem resolveStatus_of_head_some (parse : String → Option Int) (l : List PayRow) (now : Int)
    (p : PayRow) (hh : ((activeRows parse l now).mergeSort (sortLE parse)).head? = some p) :
    resolveStatus parse l now = ⟨"subscribed", some p.transaction_key⟩ := by
  unfold resolveStatus
  have hemp : l.isEmpty = false := by
    rcases hl : l with _ | ⟨a, t⟩
    · rw [hl] at hh
      simp [activeRows, groupedRows] at hh
    · rfl
  rw [if_neg (by simp [hemp])]
  simp only [hh]

/-- Two rows of the same lineage with identical `created_at`: a Paid active
row and a Cancelled row. -/
def prowA : PayRow :=
  ⟨"tx1", 10000, "Paid", "2024-01-01T00:00:00.000Z", "2024-01-31T00:00:00.000Z",
    "2024-02-01T00:00:00.000Z", "2024-02-01T10:15:00.000Z", "s1",
    some "2024-01-10T00:00:00.000Z"⟩

def prowB : PayRow :=
  ⟨"tx1", -10000, "Cancelled", "2024-01-01T00:00:00.000Z", "2024-01-31T00:00:00.000Z",
    "2024-02-01T00:00:00.000Z", "2024-02-01T10:15:00.000Z", "s1",
    some "2024-01-10T00:00:00.000Z"⟩

/--
C3 counterexample: with two rows of one lineage sharing the same
`created_at` (one Paid, one Cancelled), the grouping keeps whichever row is
seen first, so swapping the two rows flips the resolved status between
`subscribed` and `free`; the resolver is not order-independent as claimed.
-/
theorem resolveStatus_order_counterexample :
    ([prowA, prowB] : List PayRow).Perm [prowB, prowA] ∧
    resolveStatus isoParse [prowA, prowB] now1 ≠ resolveStatus isoParse [prowB, prowA] now1 := by
  refine ⟨List.Perm.swap prowB prowA [], ?_⟩
  have h1 : activeRows isoParse [prowA, prowB] now1 = [prowA] := by decide
  have h2 : resolveStatus isoParse [prowA, prowB] now1 = ⟨"subscribed", some "tx1"⟩ := by
    have hh : ((activeRows isoParse [prowA, prowB] now1).mergeSort (sortLE isoParse)).head?
        = some prowA := by
      rw [h1, List.mergeSort_singleton]
      rfl
    exact resolveStatus_of_head_some isoParse [prowA, prowB] now1 prowA hh
  have h3 : activeRows isoParse [prowB, prowA] now1 = [] := by decide
  have h4 : resolveStatus isoParse [prowB, prowA] now1 = ⟨"free", none⟩ :=
    resolveStatus_of_active_nil isoParse [prowB, prowA] now1 h3
  rw [h2, h4]
  decide

/--
C3 (amended): the resolver is order-independent on every record list whose
`created_at` fields are present and parseable and identify rows uniquely
(no two distinct rows with the same parsed `created_at`): for every
permutation of such a list it produces the same resolved status and
transaction key.
-/
theorem resolveStatus_perm_invariant (parse : String → Option Int) (l1 l2 : List PayRow)
    (now : Int) (hperm : l1.Perm l2)
    (hwf : ∀ p ∈ l1, wfRow parse p = true)
    (hdist : ∀ p ∈ l1, ∀ q ∈ l1, keyTime parse p = keyTime parse q → p = q) :
    resolveStatus parse l1 now = resolveStatus parse l2 now := by
  have hwf2 : ∀ p ∈ l2, wfRow parse p = true := fun p hp => hwf p (hperm.mem_iff.mpr hp)
  have hdist2 : ∀ p ∈ l2, ∀ q ∈ l2, keyTime parse p = keyTime parse q → p = q :=
    fun p hp q hq h => hdist p (hperm.mem_iff.mpr hp) q (hperm.mem_iff.mpr hq) h
  have hg1 := groupedRows_invariant parse l1 hwf
  have hg2 := groupedRows_invariant parse l2 hwf2
  have hchar : ∀ (l : List PayRow), (∀ p ∈ l, wfRow parse p = true) →
      (∀ p ∈ l, ∀ q ∈ l, keyTime parse p = keyTime parse q → p = q) →
      ∀ kp : String × PayRow, kp ∈ groupedRows parse l ↔
        (kp.2.transaction_key = kp.1 ∧ kp.2 ∈ l ∧
          ∀ q ∈ l, q.transaction_key = kp.1 → ctLE parse q kp.2 = true) := by
    intro l hw hd kp
    have hg := groupedRows_invariant parse l hw
    constructor
    · intro hkp
      exact hg.chr kp hkp
    · rintro ⟨hk, hmem, hmax⟩
      obtain ⟨w, hw2⟩ := hg.cov kp.2 hmem
      obtain ⟨hwk, hwmem, hwmax⟩ := hg.chr (kp.2.transaction_key, w) hw2
      have hle1 : ctLE parse kp.2 w = true := hwmax kp.2 hmem rfl
      have hle2 : ctLE parse w kp.2 = true := hmax w hwmem (hwk.trans hk)
      have hwwf : wfRow parse w = true := hw w hwmem
      have hkwf : wfRow parse kp.2 = true := hw kp.2 hmem
      have heq : w = kp.2 := hd w hwmem kp.2 hmem
        (le_antisymm (keyTime_of_ctLE parse hwwf hkwf hle2)
          (keyTime_of_ctLE parse hkwf hwwf hle1))
      have hkp : (kp.2.transaction_key, w) = kp := by
        rw [heq, hk]
      rw [← hkp]
      exact hw2
  have hsame : ∀ kp : String × PayRow,
      kp ∈ groupedRows parse l1 ↔ kp ∈ groupedRows parse l2 := by
    intro kp
    rw [hchar l1 hwf hdist kp, hchar l2 hwf2 hdist2 kp]
    constructor
    · rintro ⟨h1, h2, h3⟩
      exact ⟨h1, hperm.mem_iff.mp h2, fun q hq hqk => h3 q (hperm.mem_iff.mpr hq) hqk⟩
    · rintro ⟨h1, h2, h3⟩
      exact ⟨h1, hperm.mem_iff.mpr h2, fun q hq hqk => h3 q (hperm.mem_iff.mp hq) hqk⟩
  have hnd1 : (groupedRows parse l1).Nodup := List.Nodup.of_map Prod.fst hg1.ndk
  have hnd2 : (groupedRows parse l2).Nodup := List.Nodup.of_map Prod.fst hg2.ndk
  have hgperm : (groupedRows parse l1).Perm (groupedRows parse l2) :=
    (List.perm_ext_iff_of_nodup hnd1 hnd2).mpr hsame
  have haperm : (activeRows parse l1 now).Perm (activeRows parse l2 now) :=
    (hgperm.map Prod.snd).filter (isActive parse now)
  have hact_wf1 : ∀ q ∈ activeRows parse l1 now, wfRow parse q = true := by
    intro q hq
    have hq1 := (List.mem_filter.mp hq).1
    obtain ⟨kp, hkp, hkp2⟩ := List.mem_map.mp hq1
    exact hwf q (hkp2 ▸ (hg1.chr kp hkp).2.1)
  have hact_wf2 : ∀ q ∈ activeRows parse l2 now, wfRow parse q = true := by
    intro q hq
    have hq1 := (List.mem_filter.mp hq).1
    obtain ⟨kp, hkp, hkp2⟩ := List.mem_map.mp hq1
    exact hwf2 q (hkp2 ▸ (hg2.chr kp hkp).2.1)
  have hsub1 : ∀ q ∈ activeRows parse l1 now, q ∈ l1 := by
    intro q hq
    have hq1 := (List.mem_filter.mp hq).1
    obtain ⟨kp, hkp, hkp2⟩ := List.mem_map.mp hq1
    exact hkp2 ▸ (hg1.chr kp hkp).2.1
  by_cases hact1 : activeRows parse l1 now = []
  · have hact2 : activeRows parse l2 now = [] := by
      rw [hact1] at haperm
      exact haperm.symm.eq_nil
    rw [resolveStatus_of_active_nil parse l1 now hact1,
      resolveStatus_of_active_nil parse l2 now hact2]
  · have hact2 : activeRows parse l2 now ≠ [] := by
      intro h
      apply hact1
      rw [h] at haperm
      exact haperm.eq_nil
    obtain ⟨p1, hh1⟩ : ∃ p, ((activeRows parse l1 now).mergeSort (sortLE parse)).head? = some p := by
      rcases hms : (activeRows parse l1 now).mergeSort (sortLE parse) with _ | ⟨a, t⟩
      · exfalso
        apply hact1
        have hpm := List.mergeSort_perm (activeRows parse l1 now) (sortLE parse)
        rw [hms] at hpm
        exact hpm.symm.eq_nil
      · exact ⟨a, by simp [hms]⟩
    obtain ⟨p2, hh2⟩ : ∃ p, ((activeRows parse l2 now).mergeSort (sortLE parse)).head? = some p := by
      rcases hms : (activeRows parse l2 now).mergeSort (sortLE parse) with _ | ⟨a, t⟩
      · exfalso
        apply hact2
        have hpm := List.mergeSort_perm (activeRows parse l2 now) (sortLE parse)
        rw [hms] at hpm
        exact hpm.symm.eq_nil
      · exact ⟨a, by simp [hms]⟩
    obtain ⟨hmem1, hmax1⟩ := mergeSort_head_max parse _ hact_wf1 p1 hh1
    obtain ⟨hmem2, hmax2⟩ := mergeSort_head_max parse _ hact_wf2 p2 hh2
    have hp2in1 : p2 ∈ activeRows parse l1 now := haperm.mem_iff.mpr hmem2
    have hp1in2 : p1 ∈ activeRows parse l2 now := haperm.mem_iff.mp hmem1
    have hkt : keyTime parse p1 = keyTime parse p2 :=
      le_antisymm (hmax2 p1 hp1in2) (hmax1 p2 hp2in1)
    have hp12 : p1 = p2 := hdist p1 (hsub1 p1 hmem1) p2 (hsub1 p2 hp2in1) hkt
    rw [resolveStatus_of_head_some parse l1 now p1 hh1,
      resolveStatus_of_head_some parse l2 now p2 hh2, hp12]

/-- A Cancelled row of a second lineage with a distinct `created_at`. -/
def prowC : PayRow :=
  ⟨"tx3", 2000, "Cancelled", "2024-01-03T00:00:00.000Z", "2024-02-02T00:00:00.000Z",
    "2024-02-03T00:00:00.000Z", "2024-02-03T10:00:00.000Z", "s3",
    some "2024-01-05T00:00:00.000Z"⟩

theorem resolveStatus_perm_invariant_witness :
    resolveStatus isoParse [prow1, prowC] now1 = resolveStatus isoParse [prowC, prow1] now1 :=
  resolveStatus_perm_invariant isoParse [prow1, prowC] [prowC, prow1] now1
    (List.Perm.swap prowC prow1 []) (by decide) (by decide)
